import Mathlib

/- Verification of the RSGISLib histogram-generation core against its
   specification.  The repository snapshot contains the class declarations
   (RSGISGenHistogram.h, RSGISAddNoise.h); the method bodies are modelled
   from the specification document.  Pixel values (C float / double) are
   modelled as rationals; the `unsigned int` bin counters declared in the
   header are modelled as naturals taken modulo 2^32. -/

/-- Modulus of the `unsigned int` bin counters declared in
`RSGISGenHistogramCalcVal` (RSGISGenHistogram.h line 68); 32-bit on the
reference platforms. -/
def UINT_MOD : ℕ := 2 ^ 32

/-- Modelled from the spec: shared 1-D bin-index arithmetic,
`idx = floor((v - imgMin) / binWidth)` (spec section 4.2); the method body of
`RSGISGenHistogramCalcVal::calcImageValue` is not in the snapshot. -/
def binIdx (imgMin binWidth v : ℚ) : ℤ := ⌊(v - imgMin) / binWidth⌋

/-- Modelled from the spec: number of bins computed by the 1-D drivers,
`numBins = ceil((imgMax - imgMin) / binWidth)` (spec sections 4.2 and 8). -/
def numBinsOf (imgMin imgMax binWidth : ℚ) : ℕ :=
  (⌈(imgMax - imgMin) / binWidth⌉).toNat

/-- Modelled from the spec: the bin-edges array of length `numBins + 1` with
`edge[i] = imgMin + i * binWidth` (spec section 4.2). -/
def binEdges (imgMin binWidth : ℚ) (numBins : ℕ) : List ℚ :=
  (List.range (numBins + 1)).map (fun i : ℕ => imgMin + (i : ℚ) * binWidth)

/-- One aligned pixel for the 1-D masked path: the value of the designated
mask band and the value of the target band (spec sections 3 and 4.2). -/
structure Pixel1D where
  maskBand : ℚ
  value : ℚ
deriving DecidableEq

/-- Configuration of a 1-D histogram accumulation callback, mirroring the
data members of `RSGISGenHistogramCalcVal` / `RSGISGenHistogramNoMaskCalcVal`
(RSGISGenHistogram.h lines 61-88): bin width, number of bins, the lower edge
of the bin ranges, and the optional mask value (`none` models the no-mask
variant). -/
structure Hist1DParams where
  imgMin : ℚ
  binWidth : ℚ
  numBins : ℕ
  maskValue : Option ℚ
deriving DecidableEq

/-- Modelled from the spec: whether the pixel is excluded because a mask
value is configured and the mask-band value equals it (spec section 4.2). -/
def isMaskedPixel (p : Hist1DParams) (px : Pixel1D) : Bool :=
  match p.maskValue with
  | some m => decide (px.maskBand = m)
  | none => false

/-- Modelled from the spec: the shared accumulation step on the counters
(`bins`): compute `idx`, silently drop the value if `idx < 0` or
`idx >= numBins`, otherwise increment `counters[idx]` (spec section 4.2).
The counters are the header file `unsigned int` array, so the increment is
taken modulo `2^32`. -/
def histAccum (imgMin binWidth : ℚ) (numBins : ℕ) (bins : List ℕ) (v : ℚ) :
    List ℕ :=
  let idx := binIdx imgMin binWidth v
  if 0 ≤ idx ∧ idx < (numBins : ℤ) then
    bins.set idx.toNat ((bins.getD idx.toNat 0 + 1) % UINT_MOD)
  else bins

/-- Modelled from the spec: the body of
`RSGISGenHistogramCalcVal::calcImageValue` (masked variant): skip the pixel
when it matches the mask value, otherwise accumulate the target band value
(spec section 4.2). -/
def calcImageValueHist (p : Hist1DParams) (bins : List ℕ) (px : Pixel1D) :
    List ℕ :=
  if isMaskedPixel p px then bins
  else histAccum p.imgMin p.binWidth p.numBins bins px.value

/-- Modelled from the spec: a full scan of the raster cursor by a 1-D
histogram callback, starting from the zero-initialized counters allocated by
the driver (spec section 4.2). -/
def hist1DScan (p : Hist1DParams) (pxs : List Pixel1D) : List ℕ :=
  pxs.foldl (calcImageValueHist p) (List.replicate p.numBins 0)

/-- Typed failures of the histogram drivers (spec section 7). -/
inductive HistError where
  | InvalidBinWidth
  | InvalidRange
deriving DecidableEq

/-- Modelled from the spec: `RSGISGenHistogram::genHistogram`
(RSGISGenHistogram.h line 55), the masked 1-D driver.  The raster cursor is
modelled by the list of aligned pixels; the delimited text output is modelled
by returning the populated counters together with the bin edges it writes. -/
def genHistogram (pxs : List Pixel1D) (imgMin imgMax maskValue binWidth : ℚ) :
    Except HistError (List ℕ × List ℚ) :=
  if binWidth ≤ 0 then .error .InvalidBinWidth
  else if imgMax ≤ imgMin then .error .InvalidRange
  else
    let n := numBinsOf imgMin imgMax binWidth
    .ok (hist1DScan ⟨imgMin, binWidth, n, some maskValue⟩ pxs,
         binEdges imgMin binWidth n)

/-- Modelled from the spec: `RSGISGenHistogram::genGetHistogram`
(RSGISGenHistogram.h line 56), the unmasked 1-D driver returning the raw
counter array and the bin count.  Its pixels carry only the target band
value (`RSGISGenHistogramNoMaskCalcVal`). -/
def genGetHistogram (vals : List ℚ) (imgMin imgMax binWidth : ℚ) :
    Except HistError (List ℕ × ℕ) :=
  if binWidth ≤ 0 then .error .InvalidBinWidth
  else if imgMax ≤ imgMin then .error .InvalidRange
  else
    let n := numBinsOf imgMin imgMax binWidth
    .ok (vals.foldl (histAccum imgMin binWidth n) (List.replicate n 0), n)

/-- One aligned pixel for the 2-D path: the image-1 band value and the
image-2 band value (spec section 4.3). -/
structure Pixel2D where
  v1 : ℚ
  v2 : ℚ
deriving DecidableEq

/-- Configuration of the 2-D joint-histogram callback, mirroring the data
members of `RSGISGen2DHistogramCalcVal` (RSGISGenHistogram.h lines 91-108). -/
structure Hist2DParams where
  numBins : ℕ
  img1Scale : ℚ
  img2Scale : ℚ
  img1Off : ℚ
  img2Off : ℚ
deriving DecidableEq

/-- Modelled from the spec: affine 2-D bin index,
`binIndex = floor(value * scale + offset)` (spec sections 3 and 4.3). -/
def affBinIdx (scale off v : ℚ) : ℤ := ⌊v * scale + off⌋

/-- Accumulator of a 2-D scan: the joint count matrix (float64 counters in
the source, modelled as rationals) together with the running sums, sums of
squares and cross-product tracked for the optional R-squared output (spec
section 4.3).  The matrix field keeps the header file spelling
`histgramMatrix`. -/
structure Gen2DAcc where
  histgramMatrix : List (List ℚ)
  n : ℕ
  sumX : ℚ
  sumY : ℚ
  sumXX : ℚ
  sumYY : ℚ
  sumXY : ℚ

/-- Increment of one cell of the row-major joint count matrix. -/
def bumpMatrix (m : List (List ℚ)) (r c : ℕ) : List (List ℚ) :=
  m.set r ((m.getD r []).set c ((m.getD r []).getD c 0 + 1))

/-- Modelled from the spec: the body of
`RSGISGen2DHistogramCalcVal::calcImageValue` (RSGISGenHistogram.h lines
91-108): compute `row = floor(v1*img1Scale + img1Off)` and
`col = floor(v2*img2Scale + img2Off)`; increment `matrix[row][col]` when both
lie in `[0, numBins)`, otherwise skip the pixel entirely; the running sums
for R-squared accumulate the two band values of every scanned pixel (spec
section 4.3). -/
def calcImageValue2D (p : Hist2DParams) (acc : Gen2DAcc) (px : Pixel2D) :
    Gen2DAcc :=
  let row := affBinIdx p.img1Scale p.img1Off px.v1
  let col := affBinIdx p.img2Scale p.img2Off px.v2
  let acc1 : Gen2DAcc :=
    { acc with
        n := acc.n + 1
        sumX := acc.sumX + px.v1
        sumY := acc.sumY + px.v2
        sumXX := acc.sumXX + px.v1 * px.v1
        sumYY := acc.sumYY + px.v2 * px.v2
        sumXY := acc.sumXY + px.v1 * px.v2 }
  if 0 ≤ row ∧ row < (p.numBins : ℤ) ∧ 0 ≤ col ∧ col < (p.numBins : ℤ) then
    { acc1 with histgramMatrix := bumpMatrix acc1.histgramMatrix row.toNat col.toNat }
  else acc1

/-- Zero accumulator with a zero-initialized `numBins x numBins` matrix. -/
def initGen2DAcc (numBins : ℕ) : Gen2DAcc :=
  ⟨List.replicate numBins (List.replicate numBins 0), 0, 0, 0, 0, 0, 0⟩

/-- Modelled from the spec: a full 2-D scan of the raster cursor. -/
def hist2DScan (p : Hist2DParams) (pxs : List Pixel2D) : Gen2DAcc :=
  pxs.foldl (calcImageValue2D p) (initGen2DAcc p.numBins)

/-- Modelled from the spec: the Pearson correlation coefficient squared,
computed from the running sums accumulated during the scan (spec section
4.3).  Squaring lets R-squared be written without a square root:
`R2 = (n*Sxy - Sx*Sy)^2 / ((n*Sxx - Sx^2) * (n*Syy - Sy^2))`. -/
def rSquaredOf (acc : Gen2DAcc) : ℚ :=
  ((acc.n : ℚ) * acc.sumXY - acc.sumX * acc.sumY) ^ 2 /
    (((acc.n : ℚ) * acc.sumXX - acc.sumX ^ 2) *
      ((acc.n : ℚ) * acc.sumYY - acc.sumY ^ 2))

/-- Modelled from the spec: `RSGISGenHistogram::gen2DHistogram`
(RSGISGenHistogram.h line 57): drive the cursor with the 2-D callback over a
zero-initialized matrix and hand back the populated matrix and the
R-squared output slot. -/
def gen2DHistogram (pxs : List Pixel2D) (p : Hist2DParams) :
    List (List ℚ) × ℚ :=
  let acc := hist2DScan p pxs
  (acc.histgramMatrix, rSquaredOf acc)

/-- Whether a 1-D pixel's computed bin index is in `[0, numBins)`. -/
def inRange1D (p : Hist1DParams) (px : Pixel1D) : Bool :=
  decide (0 ≤ binIdx p.imgMin p.binWidth px.value ∧
    binIdx p.imgMin p.binWidth px.value < (p.numBins : ℤ))

/-- Number of pixels of a scan skipped by the mask (spec section 8). -/
def skippedMasked (p : Hist1DParams) (pxs : List Pixel1D) : ℕ :=
  (pxs.filter (fun px => isMaskedPixel p px)).length

/-- Number of unmasked pixels of a scan silently dropped because their bin
index fell outside `[0, numBins)` (spec section 8). -/
def skippedOutOfRange (p : Hist1DParams) (pxs : List Pixel1D) : ℕ :=
  (pxs.filter (fun px => !isMaskedPixel p px && !inRange1D p px)).length

/-- Number of unmasked pixels of a scan accumulated into some bin. -/
def countedPixels (p : Hist1DParams) (pxs : List Pixel1D) : ℕ :=
  (pxs.filter (fun px => !isMaskedPixel p px && inRange1D p px)).length

/-- Whether a 2-D pixel's computed row and column both lie in
`[0, numBins)`. -/
def inRange2D (p : Hist2DParams) (px : Pixel2D) : Bool :=
  decide (0 ≤ affBinIdx p.img1Scale p.img1Off px.v1 ∧
    affBinIdx p.img1Scale p.img1Off px.v1 < (p.numBins : ℤ) ∧
    0 ≤ affBinIdx p.img2Scale p.img2Off px.v2 ∧
    affBinIdx p.img2Scale p.img2Off px.v2 < (p.numBins : ℤ))

/-- Number of pixels of a 2-D scan skipped entirely (spec section 8). -/
def skippedPixels2D (p : Hist2DParams) (pxs : List Pixel2D) : ℕ :=
  (pxs.filter (fun px => !inRange2D p px)).length

/-- Sum of all cells of the joint count matrix. -/
def matrixSum (m : List (List ℚ)) : ℚ := (m.map List.sum).sum

/-- Per-instance state of `RSGISAddRandomNoise` (RSGISAddNoise.h lines
59-67): its only data member is the scale factor; it declares no
random-generator member, so every draw comes from the process-wide random
source. -/
structure RSGISAddRandomNoise where
  scale : ℚ
deriving DecidableEq

/-- Modelled from the spec: one draw of `uniform(-scale, +scale)` obtained
from the process-wide random source, whose raw draw `r` ranges over
`[0, 1]` (spec section 4.4). -/
def uniformDraw (scale r : ℚ) : ℚ := -scale + r * (2 * scale)

/-- Modelled from the spec: `RSGISAddRandomNoise::calcImageValue`
(RSGISAddNoise.h line 63): for each input band,
output = input + `uniform(-scale, +scale)`; `rs` is the per-band stream of
raw draws of the process-wide random source (spec section 4.4). -/
def calcImageValueRandomNoise (s : RSGISAddRandomNoise) (rs : ℕ → ℚ)
    (bandValues : List ℚ) : List ℚ :=
  bandValues.mapIdx (fun i v => v + uniformDraw s.scale (rs i))

/-- Per-instance state of `RSGISAddRandomGaussianNoisePercent`
(RSGISAddNoise.h lines 69-78): the scale factor together with its own
zero-mean unit-variance Gaussian generator member `gRand`, modelled as the
stream of draws that generator will produce. -/
structure RSGISAddRandomGaussianNoisePercent where
  scale : ℚ
  gRand : ℕ → ℚ

/-- Modelled from the spec: `RSGISAddRandomGaussianNoisePercent::calcImageValue`
(RSGISAddNoise.h line 73): for each input band,
output = input + input * gaussianSample() * scale, the samples drawn from the
instance-owned generator `gRand` (spec section 4.4). -/
def calcImageValueGaussianNoise (s : RSGISAddRandomGaussianNoisePercent)
    (bandValues : List ℚ) : List ℚ :=
  bandValues.mapIdx (fun i v => v + v * s.gRand i * s.scale)

/-- The increment on the counters factored out of `histAccum`. -/
def incrBin (bins : List ℕ) (i : ℕ) : List ℕ :=
  bins.set i ((bins.getD i 0 + 1) % UINT_MOD)

/-- Well-formedness of the joint count matrix: `numBins` rows of `numBins`
cells each. -/
def matrixDims (m : List (List ℚ)) (n : ℕ) : Prop :=
  m.length = n ∧ ∀ row ∈ m, row.length = n

/-- Number of pixels of a 2-D scan accumulated into some matrix cell. -/
def countedPixels2D (p : Hist2DParams) (pxs : List Pixel2D) : ℕ :=
  (pxs.filter (fun px => inRange2D p px)).length

/-- Concrete 2-D pixel list of the spec scenario: two 2x2 single-band
rasters with values img1 = {1,2,3,4} and img2 = {2,4,6,8}. -/
def pxs2x2 : List Pixel2D := [⟨1, 2⟩, ⟨2, 4⟩, ⟨3, 6⟩, ⟨4, 8⟩]

/-- Concrete 2-D parameters of the spec scenario: numBins = 10, unit scale,
zero offset on both axes. -/
def p2D10 : Hist2DParams := ⟨10, 1, 1, 0, 0⟩

/-- Concrete 1-D parameters used in boundary scenarios: one bin of width one
starting at zero, no mask. -/
def histP0 : Hist1DParams := ⟨0, 1, 1, none⟩

/-- Concrete pixel whose target value falls in bin 0 of `histP0`. -/
def histPx0 : Pixel1D := ⟨0, 0⟩

theorem sum_set_getD {α : Type} [AddCommMonoid α] (l : List α) :
    ∀ (i : ℕ) (a : α), i < l.length →
      (l.set i a).sum + l.getD i 0 = l.sum + a := by
  induction l with
  | nil => intro i a h; simp at h
  | cons x l ih =>
    intro i a h
    cases i with
    | zero =>
      simp only [List.set_cons_zero, List.sum_cons, List.getD_cons_zero]
      abel
    | succ i =>
      have hi : i < l.length := by simpa using h
      simp only [List.set_cons_succ, List.sum_cons, List.getD_cons_succ]
      rw [add_assoc, ih i a hi, ← add_assoc]

theorem getD_set_ne {α : Type} (l : List α) {i j : ℕ} (h : i ≠ j) (a d : α) :
    (l.set i a).getD j d = l.getD j d := by
  simp [List.getD_eq_getElem?_getD, List.getElem?_set_ne h]

theorem getD_set_self {α : Type} (l : List α) {i : ℕ} (h : i < l.length)
    (a d : α) : (l.set i a).getD i d = a := by
  simp [List.getD_eq_getElem?_getD, List.getElem?_set_self h]

theorem getD_le_sum (l : List ℕ) (i : ℕ) : l.getD i 0 ≤ l.sum := by
  induction l generalizing i with
  | nil => simp
  | cons x l ih =>
    cases i with
    | zero =>
      simp only [List.getD_cons_zero, List.sum_cons]
      exact Nat.le_add_right x l.sum
    | succ i =>
      simp only [List.getD_cons_succ, List.sum_cons]
      exact le_trans (ih i) (Nat.le_add_left l.sum x)

theorem getD_map_sum (m : List (List ℚ)) {r : ℕ} (h : r < m.length) :
    (m.map List.sum).getD r 0 = (m.getD r []).sum := by
  simp [List.getD_eq_getElem?_getD, List.getElem?_map,
    List.getElem?_eq_getElem h]

theorem mapIdx_id_of_id {α : Type} (l : List α) (f : ℕ → α → α)
    (hf : ∀ i a, f i a = a) : l.mapIdx f = l := by
  induction l generalizing f with
  | nil => simp
  | cons x l ih =>
    rw [List.mapIdx_cons, hf, ih _ (fun i a => hf (i + 1) a)]

theorem incrBin_comm (bins : List ℕ) (i j : ℕ) :
    incrBin (incrBin bins i) j = incrBin (incrBin bins j) i := by
  rcases eq_or_ne i j with rfl | hij
  · rfl
  · unfold incrBin
    rw [getD_set_ne _ hij, getD_set_ne _ hij.symm, List.set_comm _ _ _ hij]

theorem histAccum_eq_incr (imgMin binWidth : ℚ) (n : ℕ) (bins : List ℕ)
    (v : ℚ) :
    histAccum imgMin binWidth n bins v =
      if 0 ≤ binIdx imgMin binWidth v ∧ binIdx imgMin binWidth v < (n : ℤ)
      then incrBin bins (binIdx imgMin binWidth v).toNat else bins := rfl

theorem histAccum_comm (imgMin binWidth : ℚ) (n : ℕ) (bins : List ℕ)
    (v w : ℚ) :
    histAccum imgMin binWidth n (histAccum imgMin binWidth n bins v) w =
      histAccum imgMin binWidth n (histAccum imgMin binWidth n bins w) v := by
  simp only [histAccum_eq_incr]
  by_cases hv : 0 ≤ binIdx imgMin binWidth v ∧ binIdx imgMin binWidth v < (n : ℤ) <;>
    by_cases hw : 0 ≤ binIdx imgMin binWidth w ∧ binIdx imgMin binWidth w < (n : ℤ) <;>
    simp [hv, hw, incrBin_comm]

theorem calcImageValueHist_comm (p : Hist1DParams) (bins : List ℕ)
    (x y : Pixel1D) :
    calcImageValueHist p (calcImageValueHist p bins x) y =
      calcImageValueHist p (calcImageValueHist p bins y) x := by
  unfold calcImageValueHist
  by_cases hx : isMaskedPixel p x <;> by_cases hy : isMaskedPixel p y <;>
    simp [hx, hy, histAccum_comm]

theorem length_incrBin (bins : List ℕ) (i : ℕ) :
    (incrBin bins i).length = bins.length := List.length_set bins i _

theorem length_calcImageValueHist (p : Hist1DParams) (bins : List ℕ)
    (px : Pixel1D) : (calcImageValueHist p bins px).length = bins.length := by
  unfold calcImageValueHist
  rw [histAccum_eq_incr]
  split
  · rfl
  · split
    · exact length_incrBin bins _
    · rfl

theorem inRange1D_iff (p : Hist1DParams) (px : Pixel1D) :
    inRange1D p px = true ↔
      0 ≤ binIdx p.imgMin p.binWidth px.value ∧
        binIdx p.imgMin p.binWidth px.value < (p.numBins : ℤ) := by
  simp [inRange1D]

theorem countedPixels_cons (p : Hist1DParams) (px : Pixel1D)
    (pxs : List Pixel1D) :
    countedPixels p (px :: pxs) =
      (if !isMaskedPixel p px && inRange1D p px then 1 else 0) +
        countedPixels p pxs := by
  simp only [countedPixels, List.filter_cons]
  split
  · simp
    omega
  · simp

theorem counted_add_skips (p : Hist1DParams) (pxs : List Pixel1D) :
    countedPixels p pxs + skippedOutOfRange p pxs + skippedMasked p pxs =
      pxs.length := by
  induction pxs with
  | nil => rfl
  | cons px pxs ih =>
    simp only [countedPixels, skippedOutOfRange, skippedMasked,
      List.filter_cons, List.length_cons] at ih ⊢
    by_cases hm : isMaskedPixel p px <;> by_cases hr : inRange1D p px <;>
      simp [hm, hr] <;> omega

theorem foldl_hist_sum (p : Hist1DParams) :
    ∀ (pxs : List Pixel1D) (bins : List ℕ), bins.length = p.numBins →
      bins.sum + countedPixels p pxs < UINT_MOD →
      (pxs.foldl (calcImageValueHist p) bins).sum =
        bins.sum + countedPixels p pxs := by
  intro pxs
  induction pxs with
  | nil => intro bins _ _; simp [countedPixels]
  | cons px pxs ih =>
    intro bins hlen hlt
    rw [List.foldl_cons]
    by_cases hm : isMaskedPixel p px
    · have hstep : calcImageValueHist p bins px = bins := by
        simp [calcImageValueHist, hm]
      have hcnt : countedPixels p (px :: pxs) = countedPixels p pxs := by
        rw [countedPixels_cons, hm]; simp
      rw [hcnt] at hlt
      rw [hstep, hcnt]
      exact ih bins hlen hlt
    · have hmf : isMaskedPixel p px = false := Bool.eq_false_iff.mpr hm
      by_cases hc : 0 ≤ binIdx p.imgMin p.binWidth px.value ∧
          binIdx p.imgMin p.binWidth px.value < (p.numBins : ℤ)
      · -- counted pixel: the step increments one in-range counter
        have hcnt : countedPixels p (px :: pxs) = 1 + countedPixels p pxs := by
          rw [countedPixels_cons, hmf]
          simp [(inRange1D_iff p px).mpr hc]
        have hstep : calcImageValueHist p bins px =
            incrBin bins (binIdx p.imgMin p.binWidth px.value).toNat := by
          simp [calcImageValueHist, hmf, histAccum_eq_incr, hc]
        set i := (binIdx p.imgMin p.binWidth px.value).toNat with hi
        have hilt : i < bins.length := by
          rw [hlen]
          have := Int.toNat_of_nonneg hc.1
          omega
        have hget : bins.getD i 0 ≤ bins.sum := getD_le_sum bins i
        have hnowrap : (bins.getD i 0 + 1) % UINT_MOD = bins.getD i 0 + 1 := by
          apply Nat.mod_eq_of_lt
          rw [hcnt] at hlt
          omega
        have hsum : (incrBin bins i).sum = bins.sum + 1 := by
          have h2 := sum_set_getD bins i ((bins.getD i 0 + 1) % UINT_MOD) hilt
          rw [hnowrap] at h2
          unfold incrBin
          rw [hnowrap]
          omega
        have hlen2 : (incrBin bins i).length = p.numBins := by
          rw [length_incrBin]; exact hlen
        rw [hcnt] at hlt
        rw [hstep, hcnt]
        rw [ih (incrBin bins i) hlen2 (by rw [hsum]; omega)]
        rw [hsum]
        omega
      · -- silently dropped pixel
        have hrf : inRange1D p px = false := by
          simp [inRange1D, hc]
        have hstep : calcImageValueHist p bins px = bins := by
          simp [calcImageValueHist, hmf, histAccum_eq_incr, hc]
        have hcnt : countedPixels p (px :: pxs) = countedPixels p pxs := by
          rw [countedPixels_cons, hmf, hrf]; simp
        rw [hcnt] at hlt
        rw [hstep, hcnt]
        exact ih bins hlen hlt

theorem getD_mem_of_lt (m : List (List ℚ)) {r : ℕ} (h : r < m.length) :
    m.getD r [] ∈ m := by
  have hg : m.getD r [] = m[r] := by
    simp [List.getD_eq_getElem?_getD, List.getElem?_eq_getElem h]
  rw [hg]
  exact List.getElem_mem h

theorem bumpMatrix_dims {m : List (List ℚ)} {n : ℕ} (r c : ℕ)
    (hd : matrixDims m n) (hr : r < n) : matrixDims (bumpMatrix m r c) n := by
  obtain ⟨hlen, hrows⟩ := hd
  constructor
  · rw [bumpMatrix, List.length_set]
    exact hlen
  · intro row hrow
    rcases List.mem_or_eq_of_mem_set hrow with hmem | heq
    · exact hrows row hmem
    · rw [heq, List.length_set]
      exact hrows _ (getD_mem_of_lt m (hlen ▸ hr))

theorem matrixSum_bump {m : List (List ℚ)} {n : ℕ} (r c : ℕ)
    (hd : matrixDims m n) (hr : r < n) (hc : c < n) :
    matrixSum (bumpMatrix m r c) = matrixSum m + 1 := by
  obtain ⟨hlen, hrows⟩ := hd
  have hrm : r < m.length := hlen ▸ hr
  have hrowlen : (m.getD r []).length = n := hrows _ (getD_mem_of_lt m hrm)
  have hcrow : c < (m.getD r []).length := hrowlen ▸ hc
  have h1 := sum_set_getD (m.map List.sum) r
    (((m.getD r []).set c ((m.getD r []).getD c 0 + 1)).sum)
    (by rw [List.length_map]; exact hrm)
  have h2 := sum_set_getD (m.getD r []) c ((m.getD r []).getD c 0 + 1) hcrow
  have h3 := getD_map_sum m hrm
  rw [bumpMatrix, matrixSum, List.map_set]
  rw [matrixSum]
  rw [h3] at h1
  linarith [h1, h2]

theorem calc2D_n (p : Hist2DParams) (acc : Gen2DAcc) (px : Pixel2D) :
    (calcImageValue2D p acc px).n = acc.n + 1 := by
  simp only [calcImageValue2D]
  split <;> rfl

theorem calc2D_sumX (p : Hist2DParams) (acc : Gen2DAcc) (px : Pixel2D) :
    (calcImageValue2D p acc px).sumX = acc.sumX + px.v1 := by
  simp only [calcImageValue2D]
  split <;> rfl

theorem calc2D_sumY (p : Hist2DParams) (acc : Gen2DAcc) (px : Pixel2D) :
    (calcImageValue2D p acc px).sumY = acc.sumY + px.v2 := by
  simp only [calcImageValue2D]
  split <;> rfl

theorem calc2D_sumXX (p : Hist2DParams) (acc : Gen2DAcc) (px : Pixel2D) :
    (calcImageValue2D p acc px).sumXX = acc.sumXX + px.v1 * px.v1 := by
  simp only [calcImageValue2D]
  split <;> rfl

theorem calc2D_sumYY (p : Hist2DParams) (acc : Gen2DAcc) (px : Pixel2D) :
    (calcImageValue2D p acc px).sumYY = acc.sumYY + px.v2 * px.v2 := by
  simp only [calcImageValue2D]
  split <;> rfl

theorem calc2D_sumXY (p : Hist2DParams) (acc : Gen2DAcc) (px : Pixel2D) :
    (calcImageValue2D p acc px).sumXY = acc.sumXY + px.v1 * px.v2 := by
  simp only [calcImageValue2D]
  split <;> rfl

theorem calc2D_matrix (p : Hist2DParams) (acc : Gen2DAcc) (px : Pixel2D) :
    (calcImageValue2D p acc px).histgramMatrix =
      if 0 ≤ affBinIdx p.img1Scale p.img1Off px.v1 ∧
          affBinIdx p.img1Scale p.img1Off px.v1 < (p.numBins : ℤ) ∧
          0 ≤ affBinIdx p.img2Scale p.img2Off px.v2 ∧
          affBinIdx p.img2Scale p.img2Off px.v2 < (p.numBins : ℤ) then
        bumpMatrix acc.histgramMatrix
          (affBinIdx p.img1Scale p.img1Off px.v1).toNat
          (affBinIdx p.img2Scale p.img2Off px.v2).toNat
      else acc.histgramMatrix := by
  simp only [calcImageValue2D]
  split <;> rfl

theorem inRange2D_iff (p : Hist2DParams) (px : Pixel2D) :
    inRange2D p px = true ↔
      0 ≤ affBinIdx p.img1Scale p.img1Off px.v1 ∧
        affBinIdx p.img1Scale p.img1Off px.v1 < (p.numBins : ℤ) ∧
        0 ≤ affBinIdx p.img2Scale p.img2Off px.v2 ∧
        affBinIdx p.img2Scale p.img2Off px.v2 < (p.numBins : ℤ) := by
  simp [inRange2D]

theorem counted2D_add_skipped (p : Hist2DParams) (pxs : List Pixel2D) :
    countedPixels2D p pxs + skippedPixels2D p pxs = pxs.length := by
  induction pxs with
  | nil => rfl
  | cons px pxs ih =>
    simp only [countedPixels2D, skippedPixels2D, List.filter_cons,
      List.length_cons] at ih ⊢
    by_cases hr : inRange2D p px <;> simp [hr] <;> omega

theorem foldl_hist2D_sum (p : Hist2DParams) :
    ∀ (pxs : List Pixel2D) (acc : Gen2DAcc),
      matrixDims acc.histgramMatrix p.numBins →
      matrixDims ((pxs.foldl (calcImageValue2D p) acc).histgramMatrix)
          p.numBins ∧
        matrixSum ((pxs.foldl (calcImageValue2D p) acc).histgramMatrix) =
          matrixSum acc.histgramMatrix + (countedPixels2D p pxs : ℚ) := by
  intro pxs
  induction pxs with
  | nil =>
    intro acc hd
    refine ⟨hd, ?_⟩
    simp [countedPixels2D]
  | cons px pxs ih =>
    intro acc hd
    rw [List.foldl_cons]
    by_cases hc : 0 ≤ affBinIdx p.img1Scale p.img1Off px.v1 ∧
        affBinIdx p.img1Scale p.img1Off px.v1 < (p.numBins : ℤ) ∧
        0 ≤ affBinIdx p.img2Scale p.img2Off px.v2 ∧
        affBinIdx p.img2Scale p.img2Off px.v2 < (p.numBins : ℤ)
    · have hm : (calcImageValue2D p acc px).histgramMatrix =
          bumpMatrix acc.histgramMatrix
            (affBinIdx p.img1Scale p.img1Off px.v1).toNat
            (affBinIdx p.img2Scale p.img2Off px.v2).toNat := by
        rw [calc2D_matrix]
        exact if_pos hc
      have hrlt : (affBinIdx p.img1Scale p.img1Off px.v1).toNat < p.numBins := by
        have := Int.toNat_of_nonneg hc.1
        have h2 := hc.2.1
        omega
      have hclt : (affBinIdx p.img2Scale p.img2Off px.v2).toNat < p.numBins := by
        have := Int.toNat_of_nonneg hc.2.2.1
        have h2 := hc.2.2.2
        omega
      have hd2 : matrixDims (calcImageValue2D p acc px).histgramMatrix
          p.numBins := by
        rw [hm]
        exact bumpMatrix_dims _ _ hd hrlt
      obtain ⟨hdf, hsf⟩ := ih (calcImageValue2D p acc px) hd2
      refine ⟨hdf, ?_⟩
      rw [hsf, hm, matrixSum_bump _ _ hd hrlt hclt]
      have hcnt : countedPixels2D p (px :: pxs) =
          1 + countedPixels2D p pxs := by
        simp only [countedPixels2D, List.filter_cons]
        rw [if_pos ((inRange2D_iff p px).mpr hc)]
        simp [Nat.add_comm]
      rw [hcnt]
      push_cast
      ring
    · have hm : (calcImageValue2D p acc px).histgramMatrix =
          acc.histgramMatrix := by
        rw [calc2D_matrix]
        exact if_neg hc
      have hd2 : matrixDims (calcImageValue2D p acc px).histgramMatrix
          p.numBins := by rw [hm]; exact hd
      obtain ⟨hdf, hsf⟩ := ih (calcImageValue2D p acc px) hd2
      refine ⟨hdf, ?_⟩
      rw [hsf, hm]
      have hcnt : countedPixels2D p (px :: pxs) = countedPixels2D p pxs := by
        simp only [countedPixels2D, List.filter_cons]
        have : inRange2D p px = false := by
          simp [inRange2D, hc]
        rw [this]
        simp
      rw [hcnt]

theorem rsq_linear_invariant (p : Hist2DParams) (a b : ℚ) :
    ∀ (pxs : List Pixel2D) (acc : Gen2DAcc),
      (∀ px ∈ pxs, px.v2 = a * px.v1 + b) →
      acc.sumY = a * acc.sumX + (acc.n : ℚ) * b →
      acc.sumYY = a ^ 2 * acc.sumXX + 2 * a * b * acc.sumX +
        (acc.n : ℚ) * b ^ 2 →
      acc.sumXY = a * acc.sumXX + b * acc.sumX →
      (pxs.foldl (calcImageValue2D p) acc).sumY =
          a * (pxs.foldl (calcImageValue2D p) acc).sumX +
            ((pxs.foldl (calcImageValue2D p) acc).n : ℚ) * b ∧
        (pxs.foldl (calcImageValue2D p) acc).sumYY =
          a ^ 2 * (pxs.foldl (calcImageValue2D p) acc).sumXX +
            2 * a * b * (pxs.foldl (calcImageValue2D p) acc).sumX +
            ((pxs.foldl (calcImageValue2D p) acc).n : ℚ) * b ^ 2 ∧
        (pxs.foldl (calcImageValue2D p) acc).sumXY =
          a * (pxs.foldl (calcImageValue2D p) acc).sumXX +
            b * (pxs.foldl (calcImageValue2D p) acc).sumX := by
  intro pxs
  induction pxs with
  | nil => intro acc _ h1 h2 h3; exact ⟨h1, h2, h3⟩
  | cons px pxs ih =>
    intro acc hlin h1 h2 h3
    rw [List.foldl_cons]
    have hpx : px.v2 = a * px.v1 + b := hlin px (List.mem_cons_self px pxs)
    refine ih (calcImageValue2D p acc px)
      (fun q hq => hlin q (List.mem_cons_of_mem px hq)) ?_ ?_ ?_
    · rw [calc2D_sumY, calc2D_sumX, calc2D_n, hpx, h1]
      push_cast
      ring
    · rw [calc2D_sumYY, calc2D_sumXX, calc2D_sumX, calc2D_n, hpx, h2]
      push_cast
      ring
    · rw [calc2D_sumXY, calc2D_sumXX, calc2D_sumX, hpx, h3]
      ring

theorem step_px0 (k : ℕ) :
    calcImageValueHist histP0 [k] histPx0 = [(k + 1) % UINT_MOD] := by
  have hidx : binIdx 0 1 0 = 0 := by
    norm_num [binIdx]
  simp [calcImageValueHist, isMaskedPixel, histP0, histPx0,
    histAccum_eq_incr, hidx, incrBin]

theorem foldl_replicate_incr :
    ∀ (n c : ℕ),
      (List.replicate n histPx0).foldl (calcImageValueHist histP0)
        [c % UINT_MOD] = [(c + n) % UINT_MOD]
  | 0, c => by simp
  | n + 1, c => by
    rw [List.replicate_succ, List.foldl_cons, step_px0,
      Nat.mod_add_mod]
    have h := foldl_replicate_incr n (c + 1)
    rw [h]
    have hadd : c + 1 + n = c + (n + 1) := by omega
    rw [hadd]

theorem hist1DScan_replicate (n : ℕ) :
    hist1DScan histP0 (List.replicate n histPx0) = [n % UINT_MOD] := by
  have h := foldl_replicate_incr n 0
  rw [Nat.zero_mod, Nat.zero_add] at h
  simpa [hist1DScan, histP0] using h

theorem isMaskedPixel_px0 : isMaskedPixel histP0 histPx0 = false := rfl

theorem inRange1D_px0 : inRange1D histP0 histPx0 = true := by
  rw [inRange1D_iff]
  constructor <;> norm_num [binIdx, histP0, histPx0]

theorem skips_replicate_px0 (n : ℕ) :
    skippedOutOfRange histP0 (List.replicate n histPx0) = 0 ∧
      skippedMasked histP0 (List.replicate n histPx0) = 0 := by
  constructor
  · rw [skippedOutOfRange, List.filter_replicate]
    rw [isMaskedPixel_px0, inRange1D_px0]
    simp
  · rw [skippedMasked, List.filter_replicate]
    rw [isMaskedPixel_px0]
    simp

theorem length_histAccum (imgMin binWidth : ℚ) (n : ℕ) (bins : List ℕ)
    (v : ℚ) : (histAccum imgMin binWidth n bins v).length = bins.length := by
  rw [histAccum_eq_incr]
  split
  · exact length_incrBin bins _
  · rfl

theorem length_foldl_histAccum (imgMin binWidth : ℚ) (n : ℕ) :
    ∀ (vals : List ℚ) (bins : List ℕ),
      (vals.foldl (histAccum imgMin binWidth n) bins).length = bins.length := by
  intro vals
  induction vals with
  | nil => intro bins; rfl
  | cons v vals ih =>
    intro bins
    rw [List.foldl_cons, ih, length_histAccum]

theorem numBinsOf_cast (imgMin imgMax binWidth : ℚ) (hw : 0 < binWidth)
    (hr : imgMin < imgMax) :
    (numBinsOf imgMin imgMax binWidth : ℤ) =
      ⌈(imgMax - imgMin) / binWidth⌉ := by
  rw [numBinsOf]
  have hpos : 0 < (imgMax - imgMin) / binWidth :=
    div_pos (by linarith) hw
  exact Int.toNat_of_nonneg (le_of_lt (Int.ceil_pos.mpr hpos))

theorem binEdges_length (imgMin binWidth : ℚ) (n : ℕ) :
    (binEdges imgMin binWidth n).length = n + 1 := by
  rw [binEdges, List.length_map, List.length_range]

theorem binEdges_getD (imgMin binWidth : ℚ) {n i : ℕ} (h : i ≤ n) :
    (binEdges imgMin binWidth n).getD i 0 = imgMin + (i : ℚ) * binWidth := by
  have hi : i < n + 1 := by omega
  rw [binEdges, List.getD_eq_getElem?_getD, List.getElem?_map,
    List.getElem?_range hi]
  rfl

theorem bump_getD_self {m : List (List ℚ)} {r c : ℕ} (hr : r < m.length)
    (hc : c < (m.getD r []).length) :
    ((bumpMatrix m r c).getD r []).getD c 0 = (m.getD r []).getD c 0 + 1 := by
  rw [bumpMatrix, getD_set_self m hr, getD_set_self _ hc]

theorem bump_getD_other {m : List (List ℚ)} {r c : ℕ} (hr : r < m.length)
    (r1 c1 : ℕ) (h : ¬(r1 = r ∧ c1 = c)) :
    ((bumpMatrix m r c).getD r1 []).getD c1 0 = (m.getD r1 []).getD c1 0 := by
  rcases eq_or_ne r1 r with rfl | hne
  · have hc1 : c1 ≠ c := fun hc1 => h ⟨rfl, hc1⟩
    rw [bumpMatrix, getD_set_self m hr, getD_set_ne _ (Ne.symm hc1)]
  · rw [bumpMatrix, getD_set_ne _ (Ne.symm hne)]

/-- C4: the 1-D histogram drivers fail with InvalidBinWidth whenever the bin
width is nonpositive and with InvalidRange whenever (the bin width being
valid) imgMax does not exceed imgMin; the failure depends only on the driver
configuration, so the same typed error is returned for every pixel sequence
(the checks precede the scan) and the error value carries no partial
histogram. -/
theorem C4_driver_error_checks :
    (∀ (pxs : List Pixel1D) (vals : List ℚ)
        (imgMin imgMax maskValue binWidth : ℚ), binWidth ≤ 0 →
        genHistogram pxs imgMin imgMax maskValue binWidth =
            .error .InvalidBinWidth ∧
          genGetHistogram vals imgMin imgMax binWidth =
            .error .InvalidBinWidth) ∧
      (∀ (pxs : List Pixel1D) (vals : List ℚ)
          (imgMin imgMax maskValue binWidth : ℚ), 0 < binWidth →
          imgMax ≤ imgMin →
          genHistogram pxs imgMin imgMax maskValue binWidth =
              .error .InvalidRange ∧
            genGetHistogram vals imgMin imgMax binWidth =
              .error .InvalidRange) := by
  constructor
  · intro pxs vals imgMin imgMax maskValue binWidth h
    constructor
    · simp [genHistogram, h]
    · simp [genGetHistogram, h]
  · intro pxs vals imgMin imgMax maskValue binWidth h1 h2
    constructor
    · simp [genHistogram, not_le.mpr h1, h2]
    · simp [genGetHistogram, not_le.mpr h1, h2]

/-- Witness for C4 at concrete inputs: a zero bin width yields
InvalidBinWidth and a reversed range yields InvalidRange. -/
theorem C4_driver_error_checks_witness :
    genHistogram [] 0 1 5 0 = .error .InvalidBinWidth ∧
      genGetHistogram [] 1 0 1 = .error .InvalidRange :=
  ⟨(C4_driver_error_checks.1 [] [] 0 1 5 0 (by norm_num)).1,
   (C4_driver_error_checks.2 [] [] 1 0 5 1 (by norm_num) (by norm_num)).2⟩

/-- C6: the 1-D histogram result is invariant under permutation of the
pixel-scan order: scanning any permutation of the pixel sequence yields the
same final counter array. -/
theorem C6_scan_order_invariance (p : Hist1DParams)
    (pxs1 pxs2 : List Pixel1D) (h : pxs1.Perm pxs2) :
    hist1DScan p pxs1 = hist1DScan p pxs2 := by
  unfold hist1DScan
  haveI : RightCommutative (calcImageValueHist p) :=
    ⟨fun bins x y => calcImageValueHist_comm p bins x y⟩
  exact h.foldl_eq _

/-- Witness for C6: swapping a concrete two-pixel scan leaves the counters
unchanged. -/
theorem C6_scan_order_invariance_witness :
    hist1DScan ⟨0, 4, 4, none⟩ [⟨0, 1⟩, ⟨0, 5⟩] =
      hist1DScan ⟨0, 4, 4, none⟩ [⟨0, 5⟩, ⟨0, 1⟩] :=
  C6_scan_order_invariance _ _ _ (List.Perm.swap _ _ _)

/-- C7: noise synthesis with scale = 0 is the identity on pixel values for
both variants: whatever the random draws, the uniform callback and the
Gaussian-percent callback return the input band values unchanged, with
output band count equal to input band count. -/
theorem C7_noise_scale_zero_identity (rs g : ℕ → ℚ) (bandValues : List ℚ) :
    calcImageValueRandomNoise ⟨0⟩ rs bandValues = bandValues ∧
      (calcImageValueRandomNoise ⟨0⟩ rs bandValues).length =
        bandValues.length ∧
      calcImageValueGaussianNoise ⟨0, g⟩ bandValues = bandValues ∧
      (calcImageValueGaussianNoise ⟨0, g⟩ bandValues).length =
        bandValues.length := by
  have h1 : calcImageValueRandomNoise ⟨0⟩ rs bandValues = bandValues := by
    unfold calcImageValueRandomNoise
    apply mapIdx_id_of_id
    intro i a
    simp [uniformDraw]
  have h2 : calcImageValueGaussianNoise ⟨0, g⟩ bandValues = bandValues := by
    unfold calcImageValueGaussianNoise
    apply mapIdx_id_of_id
    intro i a
    simp
  exact ⟨h1, by rw [h1], h2, by rw [h2]⟩

/-- C10: the uniform noise synthesizer state is exactly its scale factor (it
owns no generator member), so two uniform instances agreeing on scale behave
identically against the one process-wide random source; the Gaussian-percent
variant owns its generator, and two instances with equal scale but different
generator states can produce different outputs on the same input. -/
theorem C10_uniform_not_independently_seedable :
    (∀ s : RSGISAddRandomNoise, s = ⟨s.scale⟩) ∧
      (∀ s1 s2 : RSGISAddRandomNoise, s1.scale = s2.scale →
        ∀ (rs : ℕ → ℚ) (bandValues : List ℚ),
          calcImageValueRandomNoise s1 rs bandValues =
            calcImageValueRandomNoise s2 rs bandValues) ∧
      (∃ g1 g2 : RSGISAddRandomGaussianNoisePercent,
        g1.scale = g2.scale ∧
        ∃ bandValues : List ℚ,
          calcImageValueGaussianNoise g1 bandValues ≠
            calcImageValueGaussianNoise g2 bandValues) := by
  refine ⟨?_, ?_, ?_⟩
  · rintro ⟨s⟩
    rfl
  · intro s1 s2 h rs bandValues
    have hs : s1 = s2 := by
      cases s1
      cases s2
      simpa using h
    rw [hs]
  · refine ⟨⟨1, fun _ => 0⟩, ⟨1, fun _ => 1⟩, rfl, [1], ?_⟩
    simp [calcImageValueGaussianNoise, List.mapIdx_cons]

/-- Witness for C10: the second conjunct applied to two concrete uniform
instances built from the same scale. -/
theorem C10_uniform_not_independently_seedable_witness :
    calcImageValueRandomNoise ⟨2⟩ (fun _ => 1 / 3) [7] =
      calcImageValueRandomNoise ⟨2⟩ (fun _ => 1 / 3) [7] :=
  C10_uniform_not_independently_seedable.2.1 ⟨2⟩ ⟨2⟩ rfl
    (fun _ => 1 / 3) [7]

theorem step_inRange_getD (p : Hist1DParams) (bins : List ℕ) (px : Pixel1D)
    (hlen : bins.length = p.numBins) (hm : isMaskedPixel p px = false)
    (h0 : 0 ≤ binIdx p.imgMin p.binWidth px.value)
    (h1 : binIdx p.imgMin p.binWidth px.value < (p.numBins : ℤ)) :
    (calcImageValueHist p bins px).getD
        (binIdx p.imgMin p.binWidth px.value).toNat 0 =
      (bins.getD (binIdx p.imgMin p.binWidth px.value).toNat 0 + 1) %
        UINT_MOD ∧
      ∀ j : ℕ, j ≠ (binIdx p.imgMin p.binWidth px.value).toNat →
        (calcImageValueHist p bins px).getD j 0 = bins.getD j 0 := by
  have hstep : calcImageValueHist p bins px =
      incrBin bins (binIdx p.imgMin p.binWidth px.value).toNat := by
    simp [calcImageValueHist, hm, histAccum_eq_incr, h0, h1]
  have hilt : (binIdx p.imgMin p.binWidth px.value).toNat < bins.length := by
    rw [hlen]
    have := Int.toNat_of_nonneg h0
    omega
  constructor
  · rw [hstep, incrBin, getD_set_self bins hilt]
  · intro j hj
    rw [hstep, incrBin, getD_set_ne bins (Ne.symm hj)]

/-- C2: for every valid configuration (positive bin width, imgMax above
imgMin) the 1-D drivers compute numBins = ceil((imgMax - imgMin)/binWidth),
hand back a counter array of exactly that length starting from
zero-initialized counters, and the bin-edges array has length numBins+1 with
edge[i] = imgMin + i*binWidth; on the concrete single-band 4x4 raster
{0,...,15} with min 0, max 16, width 4 the result is 4 bins with counts
{4,4,4,4} and edges {0,4,8,12,16}. -/
theorem C2_bin_geometry :
    (∀ (imgMin imgMax binWidth : ℚ), 0 < binWidth → imgMin < imgMax →
        (numBinsOf imgMin imgMax binWidth : ℤ) =
            ⌈(imgMax - imgMin) / binWidth⌉ ∧
          (∀ vals : List ℚ, ∃ counts : List ℕ,
            genGetHistogram vals imgMin imgMax binWidth =
                .ok (counts, numBinsOf imgMin imgMax binWidth) ∧
              counts.length = numBinsOf imgMin imgMax binWidth) ∧
          genGetHistogram [] imgMin imgMax binWidth =
            .ok (List.replicate (numBinsOf imgMin imgMax binWidth) 0,
              numBinsOf imgMin imgMax binWidth)) ∧
      (∀ (imgMin binWidth : ℚ) (n i : ℕ), i ≤ n →
        (binEdges imgMin binWidth n).length = n + 1 ∧
          (binEdges imgMin binWidth n).getD i 0 =
            imgMin + (i : ℚ) * binWidth) ∧
      genGetHistogram [0, 1, 2, 3, 4, 5, 6, 7, 8, 9, 10, 11, 12, 13, 14, 15]
          0 16 4 = .ok ([4, 4, 4, 4], 4) ∧
      binEdges 0 4 4 = [0, 4, 8, 12, 16] := by
  refine ⟨?_, ?_, ?_, ?_⟩
  · intro imgMin imgMax binWidth hw hr
    have hok : ∀ vals : List ℚ, genGetHistogram vals imgMin imgMax binWidth =
        .ok (vals.foldl
          (histAccum imgMin binWidth (numBinsOf imgMin imgMax binWidth))
          (List.replicate (numBinsOf imgMin imgMax binWidth) 0),
          numBinsOf imgMin imgMax binWidth) := by
      intro vals
      simp only [genGetHistogram, if_neg (not_le.mpr hw),
        if_neg (not_le.mpr hr)]
    refine ⟨numBinsOf_cast _ _ _ hw hr, fun vals => ⟨_, hok vals, ?_⟩, ?_⟩
    · rw [length_foldl_histAccum, List.length_replicate]
    · rw [hok []]
      rfl
  · intro imgMin binWidth n i h
    exact ⟨binEdges_length imgMin binWidth n, binEdges_getD imgMin binWidth h⟩
  · norm_num [genGetHistogram, numBinsOf, histAccum, binIdx, UINT_MOD,
      List.foldl]
    decide
  · norm_num [binEdges, List.range_succ]

/-- Witness for C2 at the concrete configuration min 0, max 16, width 4. -/
theorem C2_bin_geometry_witness :
    (numBinsOf 0 16 4 : ℤ) = ⌈((16 : ℚ) - 0) / 4⌉ ∧
      (binEdges 0 4 4).getD 2 0 = 0 + (2 : ℚ) * 4 :=
  ⟨(C2_bin_geometry.1 0 16 4 (by norm_num) (by norm_num)).1,
   (C2_bin_geometry.2.1 0 4 4 2 (by norm_num)).2⟩

/-- C1 (amended): per-pixel 1-D accumulation: a pixel matching the
configured mask value leaves every counter unchanged; an unmasked pixel
whose bin index falls outside [0, numBins) is silently dropped (no counter
changes, no error value); an unmasked in-range pixel changes exactly the
counter at its bin index, the increment being taken modulo 2^32 because the
counters are unsigned int (so it adds exactly one whenever the counter is
below 2^32 - 1); and a scan in which every pixel matches the mask value
returns all-zero counters. -/
theorem C1_per_pixel_accumulation :
    (∀ (p : Hist1DParams) (bins : List ℕ) (px : Pixel1D),
        isMaskedPixel p px = true → calcImageValueHist p bins px = bins) ∧
      (∀ (p : Hist1DParams) (bins : List ℕ) (px : Pixel1D),
        isMaskedPixel p px = false →
        ¬(0 ≤ binIdx p.imgMin p.binWidth px.value ∧
            binIdx p.imgMin p.binWidth px.value < (p.numBins : ℤ)) →
        calcImageValueHist p bins px = bins) ∧
      (∀ (p : Hist1DParams) (bins : List ℕ) (px : Pixel1D),
        bins.length = p.numBins → isMaskedPixel p px = false →
        0 ≤ binIdx p.imgMin p.binWidth px.value →
        binIdx p.imgMin p.binWidth px.value < (p.numBins : ℤ) →
        (calcImageValueHist p bins px).getD
            (binIdx p.imgMin p.binWidth px.value).toNat 0 =
          (bins.getD (binIdx p.imgMin p.binWidth px.value).toNat 0 + 1) %
            UINT_MOD ∧
          ∀ j : ℕ, j ≠ (binIdx p.imgMin p.binWidth px.value).toNat →
            (calcImageValueHist p bins px).getD j 0 = bins.getD j 0) ∧
      (∀ (p : Hist1DParams) (m : ℚ) (pxs : List Pixel1D),
        p.maskValue = some m → (∀ px ∈ pxs, px.maskBand = m) →
        hist1DScan p pxs = List.replicate p.numBins 0) := by
  refine ⟨?_, ?_, ?_, ?_⟩
  · intro p bins px h
    simp [calcImageValueHist, h]
  · intro p bins px hm hc
    simp [calcImageValueHist, hm, histAccum_eq_incr, hc]
  · intro p bins px hlen hm h0 h1
    exact step_inRange_getD p bins px hlen hm h0 h1
  · intro p m pxs hp hall
    unfold hist1DScan
    have hgen : ∀ (l : List Pixel1D) (bins : List ℕ),
        (∀ px ∈ l, px.maskBand = m) →
        l.foldl (calcImageValueHist p) bins = bins := by
      intro l
      induction l with
      | nil => intro bins _; rfl
      | cons px l ih =>
        intro bins hl
        rw [List.foldl_cons]
        have hmask : isMaskedPixel p px = true := by
          simp [isMaskedPixel, hp, hl px (List.mem_cons_self px l)]
        have hstep : calcImageValueHist p bins px = bins := by
          simp [calcImageValueHist, hmask]
        rw [hstep]
        exact ih bins (fun q hq => hl q (List.mem_cons_of_mem px hq))
    exact hgen pxs _ hall

/-- Counterexample to C1 as stated: with the counter at 2^32 - 1, an
in-range pixel wraps it to 0 instead of incrementing it by exactly one. -/
theorem C1_per_pixel_accumulation_counterexample :
    calcImageValueHist histP0 [4294967295] histPx0 = [0] ∧
      (calcImageValueHist histP0 [4294967295] histPx0).getD 0 0 ≠
        4294967295 + 1 := by
  have h := step_px0 4294967295
  have hmod : (4294967295 + 1) % UINT_MOD = 0 := by norm_num [UINT_MOD]
  rw [h, hmod]
  exact ⟨rfl, by norm_num⟩

/-- Witness for C1 at concrete inputs: a masked pixel is skipped, an
out-of-range pixel is dropped, an in-range pixel updates its counter, and an
all-masked scan returns the all-zero counters. -/
theorem C1_per_pixel_accumulation_witness :
    calcImageValueHist ⟨0, 1, 1, some 7⟩ [5] ⟨7, 0⟩ = [5] ∧
      calcImageValueHist histP0 [5] ⟨0, 99⟩ = [5] ∧
      (calcImageValueHist histP0 [5] histPx0).getD
          (binIdx histP0.imgMin histP0.binWidth histPx0.value).toNat 0 =
        ([5].getD (binIdx histP0.imgMin histP0.binWidth
          histPx0.value).toNat 0 + 1) % UINT_MOD ∧
      hist1DScan ⟨0, 1, 1, some 7⟩ [⟨7, 0⟩, ⟨7, 3⟩] = List.replicate 1 0 :=
  ⟨C1_per_pixel_accumulation.1 ⟨0, 1, 1, some 7⟩ [5] ⟨7, 0⟩
     (by simp [isMaskedPixel]),
   C1_per_pixel_accumulation.2.1 histP0 [5] ⟨0, 99⟩
     (by simp [isMaskedPixel, histP0])
     (by norm_num [binIdx, histP0]),
   (C1_per_pixel_accumulation.2.2.1 histP0 [5] histPx0 rfl
     (by simp [isMaskedPixel, histP0])
     (by norm_num [binIdx, histP0, histPx0])
     (by norm_num [binIdx, histP0, histPx0])).1,
   C1_per_pixel_accumulation.2.2.2 ⟨0, 1, 1, some 7⟩ 7 [⟨7, 0⟩, ⟨7, 3⟩] rfl
     (by simp)⟩

/-- C9: the bin counters are fixed-width unsigned integers (unsigned int,
32-bit on the reference platforms), so an in-range pixel updates its bin
counter modulo 2^32; consequently a scan of 2^32 identical in-range pixels
wraps the counter back to zero, silently breaking count conservation for
such inputs. -/
theorem C9_counter_wraparound :
    (∀ (p : Hist1DParams) (bins : List ℕ) (px : Pixel1D),
        bins.length = p.numBins → isMaskedPixel p px = false →
        0 ≤ binIdx p.imgMin p.binWidth px.value →
        binIdx p.imgMin p.binWidth px.value < (p.numBins : ℤ) →
        (calcImageValueHist p bins px).getD
            (binIdx p.imgMin p.binWidth px.value).toNat 0 =
          (bins.getD (binIdx p.imgMin p.binWidth px.value).toNat 0 + 1) %
            2 ^ 32) ∧
      hist1DScan histP0 (List.replicate (2 ^ 32) histPx0) = [0] ∧
      (hist1DScan histP0 (List.replicate (2 ^ 32) histPx0)).sum +
          skippedOutOfRange histP0 (List.replicate (2 ^ 32) histPx0) +
          skippedMasked histP0 (List.replicate (2 ^ 32) histPx0) ≠
        (List.replicate (2 ^ 32) histPx0).length := by
  have hscan : hist1DScan histP0 (List.replicate (2 ^ 32) histPx0) = [0] := by
    rw [hist1DScan_replicate]
    norm_num [UINT_MOD]
  refine ⟨?_, hscan, ?_⟩
  · intro p bins px hlen hm h0 h1
    exact (step_inRange_getD p bins px hlen hm h0 h1).1
  · rw [hscan, (skips_replicate_px0 (2 ^ 32)).1,
      (skips_replicate_px0 (2 ^ 32)).2, List.length_replicate]
    norm_num

/-- Witness for C9: one in-range pixel takes the counter 5 to (5+1) mod
2^32. -/
theorem C9_counter_wraparound_witness :
    (calcImageValueHist histP0 [5] histPx0).getD
        (binIdx histP0.imgMin histP0.binWidth histPx0.value).toNat 0 =
      ([5].getD (binIdx histP0.imgMin histP0.binWidth
        histPx0.value).toNat 0 + 1) % 2 ^ 32 :=
  C9_counter_wraparound.1 histP0 [5] histPx0 rfl
    (by simp [isMaskedPixel, histP0])
    (by norm_num [binIdx, histP0, histPx0])
    (by norm_num [binIdx, histP0, histPx0])

/-- C5 (amended): counting is conserved by both histogram paths whenever the
1-D counters cannot wrap: for every 1-D scan of fewer than 2^32 pixels,
sum(counts) + skippedOutOfRange + skippedMasked equals the number of pixels
scanned (for 2^32 or more pixels the unsigned int counters can wrap, see the
counterexample); for every 2-D scan, the sum over all matrix cells plus the
skipped pixels equals the number of pixels scanned, and the matrix is
exactly numBins x numBins. -/
theorem C5_count_conservation :
    (∀ (p : Hist1DParams) (pxs : List Pixel1D), pxs.length < 2 ^ 32 →
        (hist1DScan p pxs).sum + skippedOutOfRange p pxs +
            skippedMasked p pxs = pxs.length) ∧
      (∀ (p : Hist2DParams) (pxs : List Pixel2D),
        matrixSum (hist2DScan p pxs).histgramMatrix +
              (skippedPixels2D p pxs : ℚ) = (pxs.length : ℚ) ∧
          (hist2DScan p pxs).histgramMatrix.length = p.numBins ∧
          ∀ row ∈ (hist2DScan p pxs).histgramMatrix,
            row.length = p.numBins) := by
  constructor
  · intro p pxs hlt
    have hM : UINT_MOD = 2 ^ 32 := rfl
    have hcnt : countedPixels p pxs ≤ pxs.length :=
      List.length_filter_le _ _
    have hz : (List.replicate p.numBins (0 : ℕ)).sum = 0 := by simp
    have hs := foldl_hist_sum p pxs (List.replicate p.numBins 0)
      (List.length_replicate _ _) (by rw [hz]; omega)
    unfold hist1DScan
    rw [hs, hz]
    have hpart := counted_add_skips p pxs
    omega
  · intro p pxs
    have hd0 : matrixDims (initGen2DAcc p.numBins).histgramMatrix
        p.numBins := by
      constructor
      · simp [initGen2DAcc]
      · intro row hrow
        simp only [initGen2DAcc, List.mem_replicate] at hrow
        rw [hrow.2]
        exact List.length_replicate _ _
    obtain ⟨hdf, hsf⟩ := foldl_hist2D_sum p pxs (initGen2DAcc p.numBins) hd0
    have hz : matrixSum (initGen2DAcc p.numBins).histgramMatrix = 0 := by
      simp [initGen2DAcc, matrixSum, List.map_replicate]
    refine ⟨?_, hdf.1, hdf.2⟩
    unfold hist2DScan
    rw [hsf, hz, zero_add]
    have hpart := counted2D_add_skipped p pxs
    exact_mod_cast hpart

/-- Counterexample to C5 as stated: a completed 1-D scan of exactly 2^32
pixels all falling into the single bin wraps the unsigned int counter to
zero, so the conservation equation fails. -/
theorem C5_count_conservation_counterexample :
    (hist1DScan histP0 (List.replicate (2 ^ 32) histPx0)).sum +
        skippedOutOfRange histP0 (List.replicate (2 ^ 32) histPx0) +
        skippedMasked histP0 (List.replicate (2 ^ 32) histPx0) ≠
      (List.replicate (2 ^ 32) histPx0).length := by
  rw [hist1DScan_replicate, (skips_replicate_px0 (2 ^ 32)).1,
    (skips_replicate_px0 (2 ^ 32)).2, List.length_replicate]
  norm_num [UINT_MOD]

/-- Witness for C5: a one-pixel scan conserves counts, and the concrete 2-D
scenario matrix sums to four with no skipped pixels. -/
theorem C5_count_conservation_witness :
    (hist1DScan histP0 [histPx0]).sum +
        skippedOutOfRange histP0 [histPx0] +
        skippedMasked histP0 [histPx0] = [histPx0].length ∧
      matrixSum (hist2DScan p2D10 pxs2x2).histgramMatrix +
          (skippedPixels2D p2D10 pxs2x2 : ℚ) = (pxs2x2.length : ℚ) :=
  ⟨C5_count_conservation.1 histP0 [histPx0] (by norm_num),
   (C5_count_conservation.2 p2D10 pxs2x2).1⟩

/-- C3: 2-D joint-histogram accumulation: a pixel whose affine row or column
index falls outside [0, numBins) is skipped entirely (the matrix is left
untouched, so neither axis is partially recorded); an in-range pixel
increments matrix[row][col] by exactly one and changes no other cell; on the
concrete scenario img1 = {1,2,3,4}, img2 = {2,4,6,8}, scale 1, offset 0,
numBins 10 the matrix has exactly four nonzero cells, at (1,2), (2,4),
(3,6), (4,8), each with count one. -/
theorem C3_joint_histogram :
    (∀ (p : Hist2DParams) (acc : Gen2DAcc) (px : Pixel2D),
        ¬(0 ≤ affBinIdx p.img1Scale p.img1Off px.v1 ∧
            affBinIdx p.img1Scale p.img1Off px.v1 < (p.numBins : ℤ) ∧
            0 ≤ affBinIdx p.img2Scale p.img2Off px.v2 ∧
            affBinIdx p.img2Scale p.img2Off px.v2 < (p.numBins : ℤ)) →
        (calcImageValue2D p acc px).histgramMatrix = acc.histgramMatrix) ∧
      (∀ (p : Hist2DParams) (acc : Gen2DAcc) (px : Pixel2D),
        matrixDims acc.histgramMatrix p.numBins →
        0 ≤ affBinIdx p.img1Scale p.img1Off px.v1 →
        affBinIdx p.img1Scale p.img1Off px.v1 < (p.numBins : ℤ) →
        0 ≤ affBinIdx p.img2Scale p.img2Off px.v2 →
        affBinIdx p.img2Scale p.img2Off px.v2 < (p.numBins : ℤ) →
        (((calcImageValue2D p acc px).histgramMatrix.getD
              (affBinIdx p.img1Scale p.img1Off px.v1).toNat []).getD
            (affBinIdx p.img2Scale p.img2Off px.v2).toNat 0 =
          ((acc.histgramMatrix.getD
              (affBinIdx p.img1Scale p.img1Off px.v1).toNat []).getD
            (affBinIdx p.img2Scale p.img2Off px.v2).toNat 0) + 1 ∧
          ∀ r1 c1 : ℕ,
            ¬(r1 = (affBinIdx p.img1Scale p.img1Off px.v1).toNat ∧
                c1 = (affBinIdx p.img2Scale p.img2Off px.v2).toNat) →
            ((calcImageValue2D p acc px).histgramMatrix.getD r1 []).getD
                c1 0 =
              (acc.histgramMatrix.getD r1 []).getD c1 0)) ∧
      (gen2DHistogram pxs2x2 p2D10).1 =
        [[0, 0, 0, 0, 0, 0, 0, 0, 0, 0],
         [0, 0, 1, 0, 0, 0, 0, 0, 0, 0],
         [0, 0, 0, 0, 1, 0, 0, 0, 0, 0],
         [0, 0, 0, 0, 0, 0, 1, 0, 0, 0],
         [0, 0, 0, 0, 0, 0, 0, 0, 1, 0],
         [0, 0, 0, 0, 0, 0, 0, 0, 0, 0],
         [0, 0, 0, 0, 0, 0, 0, 0, 0, 0],
         [0, 0, 0, 0, 0, 0, 0, 0, 0, 0],
         [0, 0, 0, 0, 0, 0, 0, 0, 0, 0],
         [0, 0, 0, 0, 0, 0, 0, 0, 0, 0]] := by
  refine ⟨?_, ?_, ?_⟩
  · intro p acc px hc
    rw [calc2D_matrix, if_neg hc]
  · intro p acc px hd h1 h2 h3 h4
    have hm : (calcImageValue2D p acc px).histgramMatrix =
        bumpMatrix acc.histgramMatrix
          (affBinIdx p.img1Scale p.img1Off px.v1).toNat
          (affBinIdx p.img2Scale p.img2Off px.v2).toNat := by
      rw [calc2D_matrix, if_pos ⟨h1, h2, h3, h4⟩]
    have hrm : (affBinIdx p.img1Scale p.img1Off px.v1).toNat <
        acc.histgramMatrix.length := by
      rw [hd.1]
      have := Int.toNat_of_nonneg h1
      omega
    have hrowlen : (acc.histgramMatrix.getD
        (affBinIdx p.img1Scale p.img1Off px.v1).toNat []).length =
        p.numBins :=
      hd.2 _ (getD_mem_of_lt acc.histgramMatrix hrm)
    have hcm : (affBinIdx p.img2Scale p.img2Off px.v2).toNat <
        (acc.histgramMatrix.getD
          (affBinIdx p.img1Scale p.img1Off px.v1).toNat []).length := by
      rw [hrowlen]
      have := Int.toNat_of_nonneg h3
      omega
    constructor
    · rw [hm]
      exact bump_getD_self hrm hcm
    · intro r1 c1 hne
      rw [hm]
      exact bump_getD_other hrm r1 c1 hne
  · norm_num [gen2DHistogram, hist2DScan, pxs2x2, p2D10, calcImageValue2D,
      initGen2DAcc, affBinIdx, bumpMatrix, List.foldl, List.replicate]
    simp

/-- Witness for C3: an out-of-range pixel leaves a concrete one-cell matrix
untouched, and an in-range pixel increments its cell from 5 to 6. -/
theorem C3_joint_histogram_witness :
    (calcImageValue2D ⟨1, 1, 1, 0, 0⟩ ⟨[[5]], 0, 0, 0, 0, 0, 0⟩
        ⟨-5, 0⟩).histgramMatrix = [[5]] ∧
      (((calcImageValue2D ⟨1, 1, 1, 0, 0⟩ ⟨[[5]], 0, 0, 0, 0, 0, 0⟩
            ⟨0, 0⟩).histgramMatrix.getD
          (affBinIdx 1 0 0).toNat []).getD (affBinIdx 1 0 0).toNat 0 =
        (([[(5 : ℚ)]].getD (affBinIdx 1 0 0).toNat []).getD
          (affBinIdx 1 0 0).toNat 0) + 1) :=
  ⟨C3_joint_histogram.1 ⟨1, 1, 1, 0, 0⟩ ⟨[[5]], 0, 0, 0, 0, 0, 0⟩ ⟨-5, 0⟩
     (by norm_num [affBinIdx]),
   (C3_joint_histogram.2.1 ⟨1, 1, 1, 0, 0⟩ ⟨[[5]], 0, 0, 0, 0, 0, 0⟩ ⟨0, 0⟩
     (by
       refine ⟨rfl, ?_⟩
       intro row hrow
       simp only [List.mem_singleton] at hrow
       rw [hrow]
       rfl)
     (by norm_num [affBinIdx]) (by norm_num [affBinIdx])
     (by norm_num [affBinIdx]) (by norm_num [affBinIdx])).1⟩

/-- C8: the R-squared output of the 2-D driver is the squared Pearson
correlation coefficient computed from the running sums, sums of squares and
cross-product accumulated during the same single pass; for any pixel series
whose two bands satisfy v2 = 2*v1 + 1 (and whose first-band variance term is
nonzero, so the coefficient is defined), the returned R-squared equals 1
exactly, hence within the tolerance 1e-9. -/
theorem C8_rsquared_linear (p : Hist2DParams) (pxs : List Pixel2D)
    (hlin : ∀ px ∈ pxs, px.v2 = 2 * px.v1 + 1)
    (hden : ((hist2DScan p pxs).n : ℚ) * (hist2DScan p pxs).sumXX -
      (hist2DScan p pxs).sumX ^ 2 ≠ 0) :
    (gen2DHistogram pxs p).2 = 1 ∧
      |(gen2DHistogram pxs p).2 - 1| ≤ 1 / 1000000000 := by
  obtain ⟨h1, h2, h3⟩ := rsq_linear_invariant p 2 1 pxs
    (initGen2DAcc p.numBins) hlin (by simp [initGen2DAcc])
    (by simp [initGen2DAcc]) (by simp [initGen2DAcc])
  have hsc : hist2DScan p pxs =
      pxs.foldl (calcImageValue2D p) (initGen2DAcc p.numBins) := rfl
  rw [← hsc] at h1 h2 h3
  have hsnd : (gen2DHistogram pxs p).2 = rSquaredOf (hist2DScan p pxs) := rfl
  set acc := hist2DScan p pxs with hacc
  set D := (acc.n : ℚ) * acc.sumXX - acc.sumX ^ 2 with hD
  have hnum : (acc.n : ℚ) * acc.sumXY - acc.sumX * acc.sumY = 2 * D := by
    rw [h3, h1, hD]
    ring
  have hden4 : (acc.n : ℚ) * acc.sumYY - acc.sumY ^ 2 = 4 * D := by
    rw [h2, h1, hD]
    ring
  have hone : rSquaredOf acc = 1 := by
    rw [rSquaredOf, hnum, hden4]
    have hsq : (2 * D) ^ 2 = ((acc.n : ℚ) * acc.sumXX - acc.sumX ^ 2) *
        (4 * D) := by
      rw [← hD]
      ring
    rw [hsq]
    exact div_self (mul_ne_zero hden (mul_ne_zero (by norm_num) hden))
  rw [hsnd, hone]
  norm_num

/-- Witness for C8: the two-pixel series (0,1), (1,3) lies on v2 = 2*v1 + 1
and returns R-squared exactly 1. -/
theorem C8_rsquared_linear_witness :
    (gen2DHistogram [⟨0, 1⟩, ⟨1, 3⟩] p2D10).2 = 1 ∧
      |(gen2DHistogram [⟨0, 1⟩, ⟨1, 3⟩] p2D10).2 - 1| ≤ 1 / 1000000000 :=
  C8_rsquared_linear p2D10 [⟨0, 1⟩, ⟨1, 3⟩]
    (by
      intro px hpx
      rcases List.mem_cons.mp hpx with rfl | hpx2
      · norm_num
      · rcases List.mem_singleton.mp hpx2 with rfl
        norm_num)
    (by
      norm_num [hist2DScan, p2D10, calcImageValue2D, initGen2DAcc,
        affBinIdx, bumpMatrix, List.foldl, List.replicate])
